import Mathlib

/-!
Shallow embedding of `src/imagen_recursiva.py` (class `RecursiveImageProcessor`),
the mosaic-composition engine of the recursive-image filter.

Images are modelled as a width/height pair together with a pixel function
returning an RGB triple of naturals.  numpy's `int32` mean accumulation,
Python's `int()` truncation, Python slice-index normalization, and Python
`list.__setitem__` are modelled explicitly.

Float arithmetic in the source is handled two ways.  A *single* float
division consumed by `int(...)` or an integer-valued cast — the means in
`np.mean`, the output dimensions, the adjusted block size, and the per-block
coordinate maps — is embedded as exact truncating division (`pyTruncDiv`):
one correctly rounded quotient truncates to the same integer as the exact
quotient except when the exact quotient is within one unit in the last place
of an integer it does not equal, which cannot happen for these ratios of
small integers (a non-integer quotient `a/b` is at least `1/b` away from any
integer, far more than an ulp), so the idealization is exact there.  The
recoloring path is different: it *composes two* roundings,
`fl(v · fl(b/t))`, whose result can cross an integer boundary the exact
product does not (for example `49 · fl(1/49)` rounds to `1 − 2⁻⁵³ < 1`), so
that path is embedded with explicit IEEE-754 binary64 arithmetic:
correctly rounded division `fdivInt` and multiplication `fmulNat`
(round-to-nearest, ties-to-even, mantissa/exponent pairs), followed by
numpy's exact `clip` and the uint8 cast's truncation (`truncClampF`).

PIL's `Image.resize` is an external collaborator (spec §6); definitions that
need it take it as a function parameter.
-/

set_option maxRecDepth 8000

namespace RecImg

/-- An RGB pixel: channel values (red, green, blue), naturals (uint8 in PIL). -/
abbrev Pixel := ℕ × ℕ × ℕ

/-- An average color as returned by numpy with `dtype=np.int32`: a triple of
(possibly negative, on accumulator overflow) 32-bit signed integers. -/
abbrev AvgColor := ℤ × ℤ × ℤ

/-- A decoded pixel grid: dimensions plus a pixel lookup function. -/
structure Img where
  width : ℕ
  height : ℕ
  pixel : ℕ → ℕ → Pixel

/-- Model of `Image.new("RGB", (w, h))`: a black canvas. -/
def blankImg (w h : ℕ) : Img := ⟨w, h, fun _ _ => (0, 0, 0)⟩

/-- Red channel of a pixel. -/
def pr (p : Pixel) : ℕ := p.1

/-- Green channel of a pixel. -/
def pg (p : Pixel) : ℕ := p.2.1

/-- Blue channel of a pixel. -/
def pb (p : Pixel) : ℕ := p.2.2

/-- Python `int(a / b)` for `b > 0`: the exact quotient truncated toward zero.
(Returns 0 when `b = 0`; in the source that case raises `ZeroDivisionError`
and is guarded explicitly at the one reachable site, in `processSection`.) -/
def pyTruncDiv (a b : ℤ) : ℤ := if 0 ≤ a then a / b else -(-a / b)

/-- Wrap an integer into numpy's signed 32-bit range (overflow semantics of an
`np.int32` accumulator). -/
def i32 (n : ℤ) : ℤ := (n + 2 ^ 31) % 2 ^ 32 - 2 ^ 31

/-- Python slice-index normalization for a sequence of length `len`:
negative indices count from the end, then the result is clamped to `[0, len]`. -/
def pyIdx (len : ℕ) (i : ℤ) : ℕ :=
  (min (max (if i < 0 then (len : ℤ) + i else i) 0) (len : ℤ)).toNat

/-- Python `range(a, b, step)` for a positive step. -/
def pyRange (a b step : ℕ) : List ℕ :=
  (List.range ((b - a + step - 1) / step)).map (fun k => a + k * step)

/-- Python `lst[i] = v`: succeeds only when `i < len(lst)`, otherwise raises
`IndexError` (modelled as `none`). -/
def pySetItem {α : Type} (l : List α) (i : ℕ) (v : α) : Option (List α) :=
  if i < l.length then some (l.set i v) else none

/-- Sum of a channel function over the rectangle `[x0, x1) × [y0, y1)`. -/
def sumRegion (f : ℕ → ℕ → ℕ) (x0 x1 y0 y1 : ℕ) : ℕ :=
  ((List.range (y1 - y0)).map (fun dy =>
    ((List.range (x1 - x0)).map (fun dx => f (x0 + dx) (y0 + dy))).sum)).sum

/-- Model of `np.mean(..., dtype=np.int32)` of a sum of `count` nonnegative
entries: the sum accumulates in a wrapping int32, then a float division by
`count` is cast back (unsafely) to int32, truncating toward zero.  (The
quotient of an int32 value by a positive count always fits in int32, so no
second wrap occurs.) -/
def meanI32 (sum count : ℕ) : ℤ := pyTruncDiv (i32 (sum : ℤ)) (count : ℤ)

/-- Model of `_compute_image_average_color`: per-channel `np.mean` over the
whole image with an `np.int32` accumulator. -/
def computeImageAverageColor (img : Img) : AvgColor :=
  let cnt := img.width * img.height
  ( meanI32 (sumRegion (fun x y => pr (img.pixel x y)) 0 img.width 0 img.height) cnt
  , meanI32 (sumRegion (fun x y => pg (img.pixel x y)) 0 img.width 0 img.height) cnt
  , meanI32 (sumRegion (fun x y => pb (img.pixel x y)) 0 img.width 0 img.height) cnt )

/-- Model of `_compute_block_average_color`: clamp the block's end coordinates
with `min`, return `(0,0,0)` when the guard fires, otherwise take the numpy
mean of the slice `image_array[y0:y_end, x0:x_end]` — whose indices go through
Python slice normalization (`pyIdx`), which wraps negative indices around from
the end of the axis. -/
def computeBlockAverageColor (img : Img) (x0 y0 blockSize : ℤ) : AvgColor :=
  let w := img.width
  let h := img.height
  let xEnd : ℤ := min (x0 + blockSize) (w : ℤ)
  let yEnd : ℤ := min (y0 + blockSize) (h : ℤ)
  if (w : ℤ) ≤ x0 ∨ (h : ℤ) ≤ y0 ∨ xEnd ≤ x0 ∨ yEnd ≤ y0 then (0, 0, 0)
  else
    let nx0 := pyIdx w x0
    let nx1 := pyIdx w xEnd
    let ny0 := pyIdx h y0
    let ny1 := pyIdx h yEnd
    let cnt := (nx1 - nx0) * (ny1 - ny0)
    ( meanI32 (sumRegion (fun x y => pr (img.pixel x y)) nx0 nx1 ny0 ny1) cnt
    , meanI32 (sumRegion (fun x y => pg (img.pixel x y)) nx0 nx1 ny0 ny1) cnt
    , meanI32 (sumRegion (fun x y => pb (img.pixel x y)) nx0 nx1 ny0 ny1) cnt )

/-! ### IEEE-754 binary64 arithmetic for the recolor path

The recolor factors `block / target` and the products `pixel · factor` are
float64 values produced by two dependent correctly rounded operations, so
they are modelled bit-exactly.  A positive float is a pair `(m, e)` of
mantissa and exponent with value `m · 2^e` and `m ∈ [2^52, 2^53)` (zero is
`(0, 0)`).  All values arising here are normal: operands are int32 ratios
(magnitude in `(2^-32, 2^31)`) and uint8 multiples of them, so neither
subnormals nor overflow can occur. -/

/-- Number of halvings needed to reach zero, driven by explicit fuel. -/
def bitLenAux : ℕ → ℕ → ℕ
  | 0, _ => 0
  | f + 1, n => if n = 0 then 0 else bitLenAux f (n / 2) + 1

/-- Number of binary digits of `n` (`⌊log₂ n⌋ + 1` for `n ≥ 1`, and 0 for
`n = 0`).  The fuel 300 caps it at 300 digits, which covers every number the
float model forms (scaled quotients below `2^232`, products below `2^61`). -/
def bitLen (n : ℕ) : ℕ := bitLenAux 300 n

/-- Round-to-nearest, ties-to-even, of the fraction `p / q` (for `q > 0`). -/
def rne (p q : ℕ) : ℕ :=
  if 2 * (p % q) < q then p / q
  else if q < 2 * (p % q) then p / q + 1
  else if (p / q) % 2 = 0 then p / q else p / q + 1

/-- Correctly rounded binary64 division of positive integers: the value
`n / d` as a normalized mantissa/exponent pair.  The quotient's binade is
located from the bit length of `⌊n · 2^200 / d⌋` (so `n/d` lies in
`[2^(L-201), 2^(L-200))`), the 53-bit mantissa is the correctly rounded
`(n/d) · 2^(253-L)`, and a mantissa that rounds up to `2^53` is
renormalized. -/
def fdivPos (n d : ℕ) : ℕ × ℤ :=
  let L := bitLen (n * 2 ^ 200 / d)
  let m := if L ≤ 253 then rne (n * 2 ^ (253 - L)) d else rne n (d * 2 ^ (L - 253))
  if m = 2 ^ 53 then (2 ^ 52, (L : ℤ) - 253 + 1) else (m, (L : ℤ) - 253)

/-- Correctly rounded binary64 division `b / t` of the signed average
channels (`t ≥ 1` at every call site, after the floor-at-1 guard); IEEE
rounding is symmetric in sign, so the sign is split off the magnitude. -/
def fdivInt (b t : ℤ) : ℤ × ℤ :=
  if b = 0 then (0, 0)
  else if 0 < b then
    (((fdivPos b.toNat t.toNat).1 : ℤ), (fdivPos b.toNat t.toNat).2)
  else
    (-((fdivPos (-b).toNat t.toNat).1 : ℤ), (fdivPos (-b).toNat t.toNat).2)

/-- Correctly rounded binary64 product of a uint8 pixel value `v` with the
positive float `m · 2^e`: the exact integer product `v · m` (below `2^61`)
is rounded back to 53 bits, renormalizing a mantissa that rounds up to
`2^53`. -/
def fmulNat (v m : ℕ) (e : ℤ) : ℕ × ℤ :=
  if v = 0 ∨ m = 0 then (0, 0)
  else
    let L := bitLen (v * m)
    if L ≤ 53 then (v * m, e)
    else
      let m2 := rne (v * m) (2 ^ (L - 53))
      if m2 = 2 ^ 53 then (2 ^ 52, e + (L : ℤ) - 53 + 1)
      else (m2, e + (L : ℤ) - 53)

/-- Model of `np.clip(x, 0, 255).astype(np.uint8)` on the nonnegative float
`m · 2^e`: the clip is exact on floats (0 and 255 are representable), and
the cast truncates toward zero, so the result is the truncated value capped
at 255. -/
def truncClampF (m : ℕ) (e : ℤ) : ℕ :=
  min (if 0 ≤ e then m * 2 ^ e.toNat else m / 2 ^ (-e).toNat) 255

/-- One channel of the vectorized transform in `_recolor_image`:
`np.clip(v * factor, 0, 255).astype(np.uint8)` with
`factor = blockC / targetC` (`targetC ≥ 1` after the floor-at-1 guard),
under binary64 semantics: the factor is the correctly rounded quotient, the
product is correctly rounded again, then clipped and cast.  When the factor
is zero or negative (a zero or negative `blockC`), every product is ≤ 0 and
the clip sends it to 0, so that branch returns 0 without needing the
product's magnitude. -/
def recolorChannel (v : ℕ) (blockC targetC : ℤ) : ℕ :=
  let f := fdivInt blockC targetC
  if f.1 ≤ 0 then 0
  else truncClampF (fmulNat v f.1.toNat f.2).1 (fmulNat v f.1.toNat f.2).2

/-- Overwrite the red plane of an image (numpy `arr[:, :, 0] = ...`). -/
def writeR (img : Img) (f : ℕ → ℕ → ℕ) : Img :=
  { img with pixel := fun x y => (f x y, pg (img.pixel x y), pb (img.pixel x y)) }

/-- Overwrite the green plane of an image (numpy `arr[:, :, 1] = ...`). -/
def writeG (img : Img) (f : ℕ → ℕ → ℕ) : Img :=
  { img with pixel := fun x y => (pr (img.pixel x y), f x y, pb (img.pixel x y)) }

/-- Overwrite the blue plane of an image (numpy `arr[:, :, 2] = ...`). -/
def writeB (img : Img) (f : ℕ → ℕ → ℕ) : Img :=
  { img with pixel := fun x y => (pr (img.pixel x y), pg (img.pixel x y), f x y) }

/-- Model of `_recolor_image`: floor the target channels at 1, then perform
three sequential plane assignments on a copy of the input array, each with
per-channel factor `block / target`, each reading the plane it overwrites from
the current state of the copy. -/
def recolorImage (img : Img) (targetAvg blockAvg : AvgColor) : Img :=
  let tr : ℤ := max 1 targetAvg.1
  let tg : ℤ := max 1 targetAvg.2.1
  let tb : ℤ := max 1 targetAvg.2.2
  let a0 := img
  let a1 := writeR a0 (fun x y => recolorChannel (pr (a0.pixel x y)) blockAvg.1 tr)
  let a2 := writeG a1 (fun x y => recolorChannel (pg (a1.pixel x y)) blockAvg.2.1 tg)
  writeB a2 (fun x y => recolorChannel (pb (a2.pixel x y)) blockAvg.2.2 tb)

/-- Model of PIL `dst.paste(src, (x0, y0))`: copy `src` into `dst` at offset
`(x0, y0)`, clipped to the destination bounds. -/
def pasteImg (dst src : Img) (x0 y0 : ℕ) : Img :=
  { dst with pixel := fun x y =>
      if x0 ≤ x ∧ x < x0 + src.width ∧ y0 ≤ y ∧ y < y0 + src.height ∧
         x < dst.width ∧ y < dst.height
      then src.pixel (x - x0) (y - y0) else dst.pixel x y }

/-- The four quality levels accepted by `process_image`. -/
inductive Quality | low | normal | high | ultra
deriving DecidableEq

/-- Numerator of the scale factor resolved from the quality level
(0.75, 1.0, 1.5, 2.0 — each an exact dyadic float in the source). -/
def scaleNum : Quality → ℤ
  | .low => 3
  | .normal => 1
  | .high => 3
  | .ultra => 2

/-- Denominator of the scale factor resolved from the quality level. -/
def scaleDen : Quality → ℤ
  | .low => 4
  | .normal => 1
  | .high => 2
  | .ultra => 1

/-- The scale factor itself, as a rational (used in statements only). -/
def scaleFactor (q : Quality) : ℚ := (scaleNum q : ℚ) / (scaleDen q : ℚ)

/-- Model of `adjusted_block_size = max(1, int(block_size * scale_factor))`. -/
def adjustedBlockSize (blockSize : ℤ) (q : Quality) : ℕ :=
  (max 1 (pyTruncDiv (blockSize * scaleNum q) (scaleDen q))).toNat

/-- Model of `int(dim * scale_factor)` for a nonnegative dimension. -/
def outputDim (n : ℕ) (q : Quality) : ℕ :=
  (pyTruncDiv ((n : ℤ) * scaleNum q) (scaleDen q)).toNat

/-- Model of `_divide_into_sections`: four row-sections
`(x_start, y_start, x_end, y_end)` of height `height // 4`, the last one
extended to `height`.  The `blockSize` parameter is accepted (as in the
source) but unused there. -/
def divideIntoSections (width height blockSize : ℕ) : List (ℕ × ℕ × ℕ × ℕ) :=
  let numSections := 4
  let sectionHeight := height / numSections
  (List.range numSections).map (fun i =>
    (0, i * sectionHeight, width,
      if i = numSections - 1 then height else (i + 1) * sectionHeight))

/-- The two exceptions a worker thread can raise in `_process_section`:
`ZeroDivisionError` from `self.width / new_image.width` when the output width
is zero, and `IndexError` from `results[index] = True`. -/
inductive SecError | zeroDivision | indexError
deriving DecidableEq

/-- Model of `_process_section`: build a section canvas, stamp one recolored
thumbnail per block position of the section, paste the section into the shared
canvas, then execute `results[index] = True` — which raises `IndexError` when
`results` is too short, after the paste has already happened.  The coordinate
maps `int(x * scale_factor)` with `scale_factor = self.width / new_image.width`
are embedded as `pyTruncDiv (x * width) newWidth`. -/
def processSection (origImg : Img) (newImage : Img) (sec : ℕ × ℕ × ℕ × ℕ)
    (blockSize : ℕ) (scaledImage : Img) (scaledAvgColor : AvgColor)
    (results : List (Option Bool)) (index : ℕ) :
    Img × List (Option Bool) × Option SecError :=
  let xStart := sec.1
  let yStart := sec.2.1
  let xEnd := sec.2.2.1
  let yEnd := sec.2.2.2
  let sectionImage0 := blankImg (xEnd - xStart) (yEnd - yStart)
  if newImage.width = 0 then (newImage, results, some .zeroDivision)
  else
    let sectionImage := (pyRange yStart yEnd blockSize).foldl (fun sImg (y : ℕ) =>
      (pyRange xStart xEnd blockSize).foldl (fun sImg2 (x : ℕ) =>
        let origX := pyTruncDiv ((x : ℤ) * origImg.width) (newImage.width : ℤ)
        let origY := pyTruncDiv ((y : ℤ) * origImg.width) (newImage.width : ℤ)
        let blockAvgColor :=
          computeBlockAverageColor origImg origX origY
            (pyTruncDiv ((blockSize : ℤ) * origImg.width) (newImage.width : ℤ))
        let recoloredTile := recolorImage scaledImage scaledAvgColor blockAvgColor
        pasteImg sImg2 recoloredTile (x - xStart) (y - yStart)) sImg) sectionImage0
    let newImage2 := pasteImg newImage sectionImage xStart yStart
    match pySetItem results index (some true) with
    | some results2 => (newImage2, results2, none)
    | none => (newImage2, results, some .indexError)

/-- Everything observable from one `process_image` call. -/
structure RunResult where
  outputWidth : ℕ
  outputHeight : ℕ
  adjusted : ℕ
  sections : List (ℕ × ℕ × ℕ × ℕ)
  thumbnail : Img
  targetAvgUsed : AvgColor
  canvas : Img
  results : List (Option Bool)
  secOutcomes : List (Option SecError)

/-- One scheduling step of `process_image`: run the worker for one
`(index, section)` pair against the shared state (canvas, results list,
recorded worker outcomes). -/
def runStep (origImg : Img) (adjusted : ℕ) (scaledImage : Img)
    (scaledAvgColor : AvgColor)
    (st : Img × List (Option Bool) × List (Option SecError))
    (isec : ℕ × (ℕ × ℕ × ℕ × ℕ)) :
    Img × List (Option Bool) × List (Option SecError) :=
  let out := processSection origImg st.1 isec.2 adjusted scaledImage
    scaledAvgColor st.2.1 isec.1
  (out.1, out.2.1, st.2.2 ++ [out.2.2])

/-- Shared body of `process_image`, parameterized by how the `results` list is
initialized (the source initializes it empty; the fixed reference initializes
one slot per section).  `resize` stands for PIL's `Image.resize`, an external
collaborator.  Workers write to row-disjoint slices of the shared canvas, so
running them in source order is observation-equivalent to the threaded
interleaving.  `targetAvgUsed` records the `scaled_avg_color` value that
`process_image` passes to every `_process_section` call — which the source
computes as `self._compute_image_average_color()`, the average of the
original image. -/
def processImageAux (resize : Img → ℕ → ℕ → Img) (img : Img) (blockSize : ℤ)
    (q : Quality) (initResults : ℕ → List (Option Bool)) : RunResult :=
  let adjusted := adjustedBlockSize blockSize q
  let ow := outputDim img.width q
  let oh := outputDim img.height q
  let newImage := blankImg ow oh
  let sections := divideIntoSections ow oh adjusted
  let scaledImage := resize img adjusted adjusted
  let scaledAvgColor := computeImageAverageColor img
  let final := (sections.enum).foldl
    (runStep img adjusted scaledImage scaledAvgColor)
    (newImage, initResults sections.length, [])
  ⟨ow, oh, adjusted, sections, scaledImage, scaledAvgColor,
    final.1, final.2.1, final.2.2⟩

/-- Model of `process_image` as written: `results = []` (line 170). -/
def processImage (resize : Img → ℕ → ℕ → Img) (img : Img) (blockSize : ℤ)
    (q : Quality) : RunResult :=
  processImageAux resize img blockSize q (fun _ => [])

/-- Reference variant of `process_image` whose `results` list has one `None`
slot per section, so the workers' completion marks succeed. -/
def processImageFixed (resize : Img → ℕ → ℕ → Img) (img : Img) (blockSize : ℤ)
    (q : Quality) : RunResult :=
  processImageAux resize img blockSize q (fun n => List.replicate n none)

/-- Model of `len([r for r in results if r is not None])` — the
completed-section count the progress loop observes. -/
def observedCompleted (results : List (Option Bool)) : ℕ :=
  (results.filter (fun r => r.isSome)).length

/-! ### Specification-side definitions

These definitions follow the spec's words (truncation replaced by
round-to-nearest, clipped exact means, and so on) and exist to be compared
against the model definitions above. -/

/-- Specification-side rounding: round-to-nearest (half away from zero
rounds up) of the fraction `a / b` for `b > 0`, computed as
`⌊(a + b/2) / b⌋ = ⌊(2a + b) / (2b)⌋`. -/
def specRoundDiv (a b : ℤ) : ℤ := (2 * a + b) / (2 * b)

/-- Specification-side adjusted block size:
`max(1, round(blockSize · scaleFactor))` with round-to-nearest. -/
def specAdjustedBlockSize (blockSize : ℤ) (q : Quality) : ℕ :=
  (max 1 (specRoundDiv (blockSize * scaleNum q) (scaleDen q))).toNat

/-- Specification-side recolor of one channel:
`clamp(round(v · blockC / max(1, targetC)), 0, 255)` with round-to-nearest. -/
def specRecolorChannel (v : ℕ) (blockC targetC : ℤ) : ℕ :=
  (min (max (specRoundDiv ((v : ℤ) * blockC) (max 1 targetC)) 0) 255).toNat

/-- Specification-side recolor of one pixel (round-to-nearest per channel). -/
def specRecolorPixel (p : Pixel) (targetAvg blockAvg : AvgColor) : Pixel :=
  ( specRecolorChannel (pr p) blockAvg.1 targetAvg.1
  , specRecolorChannel (pg p) blockAvg.2.1 targetAvg.2.1
  , specRecolorChannel (pb p) blockAvg.2.2 targetAvg.2.2 )

/-- Specification-side block average: the integer mean over the rectangle
`[x0, x0+blockSize) × [y0, y0+blockSize)` clipped to the image bounds, and
`(0,0,0)` when the clipped rectangle is empty. -/
def specBlockAverage (img : Img) (x0 y0 blockSize : ℤ) : AvgColor :=
  let cx0 := (max x0 0).toNat
  let cx1 := (min (x0 + blockSize) (img.width : ℤ)).toNat
  let cy0 := (max y0 0).toNat
  let cy1 := (min (y0 + blockSize) (img.height : ℤ)).toNat
  if cx1 ≤ cx0 ∨ cy1 ≤ cy0 then (0, 0, 0)
  else
    let cnt := (cx1 - cx0) * (cy1 - cy0)
    ( (sumRegion (fun x y => pr (img.pixel x y)) cx0 cx1 cy0 cy1 / cnt : ℕ)
    , (sumRegion (fun x y => pg (img.pixel x y)) cx0 cx1 cy0 cy1 / cnt : ℕ)
    , (sumRegion (fun x y => pb (img.pixel x y)) cx0 cx1 cy0 cy1 / cnt : ℕ) )

/-! ### Helper lemmas -/

theorem pyTruncDiv_of_nonneg {a b : ℤ} (h : 0 ≤ a) : pyTruncDiv a b = a / b :=
  if_pos h

theorem pyTruncDiv_nonpos {a b : ℤ} (ha : a ≤ 0) (hb : 0 ≤ b) :
    pyTruncDiv a b ≤ 0 := by
  unfold pyTruncDiv
  split
  · have haz : a = 0 := le_antisymm ha (by assumption)
    simp [haz]
  · have h1 : (0 : ℤ) ≤ -a := by omega
    have h2 := Int.ediv_nonneg h1 hb
    omega

theorem floorQ_intCast_div {a d : ℤ} (hd : 0 ≤ d) :
    ⌊(a : ℚ) / (d : ℚ)⌋ = a / d := by
  lift d to ℕ using hd
  exact_mod_cast Rat.floor_intCast_div_natCast a d

theorem bitLen_two_pow_200 : bitLen (2 ^ 200) = 201 := by decide

/-- Dividing any positive integer by itself is correctly rounded to exactly
`1.0 = 2^52 · 2^-52`: the scaled quotient is exactly `2^200` and the
mantissa computation `rne (n · 2^52) n` is exact. -/
theorem fdivPos_self {n : ℕ} (hn : 0 < n) : fdivPos n n = (2 ^ 52, -52) := by
  unfold fdivPos
  rw [Nat.mul_div_cancel_left _ hn, bitLen_two_pow_200]
  have h1 : rne (n * 4503599627370496) n = 4503599627370496 := by
    unfold rne
    rw [Nat.mul_mod_right, Nat.mul_div_cancel_left _ hn]
    simp [hn]
  norm_num [h1]

theorem fdivInt_self {c : ℤ} (hc : 1 ≤ c) : fdivInt c c = (2 ^ 52, -52) := by
  unfold fdivInt
  rw [if_neg (by omega), if_pos (by omega), fdivPos_self (by omega : 0 < c.toNat)]
  norm_num

theorem recolorChannel_self {v : ℕ} {c : ℤ} (hc : 1 ≤ c) (hv : v ≤ 255) :
    recolorChannel v c c = v := by
  unfold recolorChannel
  rw [fdivInt_self hc]
  norm_num
  interval_cases v <;> decide

/-! ### Concrete inputs used by counterexamples and witnesses -/

/-- A 1×1 thumbnail whose only pixel is `(1, 1, 1)`. -/
def imgT1 : Img := ⟨1, 1, fun _ _ => (1, 1, 1)⟩

/-- A 1×1 image whose only pixel is `(100, 150, 200)`. -/
def imgW9 : Img := ⟨1, 1, fun _ _ => (100, 150, 200)⟩

/-! ### Claims -/

/-- C3, counterexample.  The claim says each channel becomes
`clamp(round(v · f_c), 0, 255)`; on the pixel value 1 with
`blockAvg = (3,3,3)` and `targetAvg = (2,2,2)` the factor is 3/2 and the
product 1.5 — both exact dyadics, so every float rounding is exact — and
the claimed round-to-nearest gives 2 while the code's `astype(np.uint8)`
truncation gives 1. -/
theorem c3_counterexample :
    (recolorImage imgT1 (2, 2, 2) (3, 3, 3)).pixel 0 0 = (1, 1, 1) ∧
    specRecolorPixel (imgT1.pixel 0 0) (2, 2, 2) (3, 3, 3) = (2, 2, 2) ∧
    (recolorImage imgT1 (2, 2, 2) (3, 3, 3)).pixel 0 0 ≠
      specRecolorPixel (imgT1.pixel 0 0) (2, 2, 2) (3, 3, 3) := by
  decide

/-- C3, amended.  `_recolor_image` returns a new image of the input's
dimensions; under IEEE-754 binary64 semantics each pixel channel value `v`
becomes `clip(fl(v · fl(blockAvg_c / max(targetAvg_c, 1))), 0, 255)` cast
to uint8: two correctly rounded operations (`fdivInt`, `fmulNat`) followed
by numpy's exact clip and the cast's truncation toward zero (`truncClampF`)
— not round-to-nearest.  The three sequential plane writes do not interfere
with each other, and the input image is left unchanged (the transform works
on a copy). -/
theorem c3_recolor_is_truncated_scaling (img : Img) (targetAvg blockAvg : AvgColor)
    (x y : ℕ) :
    (recolorImage img targetAvg blockAvg).width = img.width ∧
    (recolorImage img targetAvg blockAvg).height = img.height ∧
    (recolorImage img targetAvg blockAvg).pixel x y =
      ( (if (fdivInt blockAvg.1 (max 1 targetAvg.1)).1 ≤ 0 then 0
         else truncClampF
           (fmulNat (pr (img.pixel x y))
             (fdivInt blockAvg.1 (max 1 targetAvg.1)).1.toNat
             (fdivInt blockAvg.1 (max 1 targetAvg.1)).2).1
           (fmulNat (pr (img.pixel x y))
             (fdivInt blockAvg.1 (max 1 targetAvg.1)).1.toNat
             (fdivInt blockAvg.1 (max 1 targetAvg.1)).2).2)
      , (if (fdivInt blockAvg.2.1 (max 1 targetAvg.2.1)).1 ≤ 0 then 0
         else truncClampF
           (fmulNat (pg (img.pixel x y))
             (fdivInt blockAvg.2.1 (max 1 targetAvg.2.1)).1.toNat
             (fdivInt blockAvg.2.1 (max 1 targetAvg.2.1)).2).1
           (fmulNat (pg (img.pixel x y))
             (fdivInt blockAvg.2.1 (max 1 targetAvg.2.1)).1.toNat
             (fdivInt blockAvg.2.1 (max 1 targetAvg.2.1)).2).2)
      , (if (fdivInt blockAvg.2.2 (max 1 targetAvg.2.2)).1 ≤ 0 then 0
         else truncClampF
           (fmulNat (pb (img.pixel x y))
             (fdivInt blockAvg.2.2 (max 1 targetAvg.2.2)).1.toNat
             (fdivInt blockAvg.2.2 (max 1 targetAvg.2.2)).2).1
           (fmulNat (pb (img.pixel x y))
             (fdivInt blockAvg.2.2 (max 1 targetAvg.2.2)).1.toNat
             (fdivInt blockAvg.2.2 (max 1 targetAvg.2.2)).2).2) ) :=
  ⟨rfl, rfl, rfl⟩

/-- C9.  Recoloring with `blockAvg = targetAvg` whose components are all ≥ 1
is the identity on every pixel of the image (and preserves its dimensions). -/
theorem c9_recolor_identity (img : Img) (avg : AvgColor)
    (h1 : 1 ≤ avg.1) (h2 : 1 ≤ avg.2.1) (h3 : 1 ≤ avg.2.2)
    (hpix : ∀ x y, x < img.width → y < img.height →
      pr (img.pixel x y) ≤ 255 ∧ pg (img.pixel x y) ≤ 255 ∧ pb (img.pixel x y) ≤ 255) :
    (recolorImage img avg avg).width = img.width ∧
    (recolorImage img avg avg).height = img.height ∧
    ∀ x y, x < img.width → y < img.height →
      (recolorImage img avg avg).pixel x y = img.pixel x y := by
  refine ⟨rfl, rfl, fun x y hx hy => ?_⟩
  obtain ⟨hr, hg, hb⟩ := hpix x y hx hy
  show ( recolorChannel (pr (img.pixel x y)) avg.1 (max 1 avg.1)
       , recolorChannel (pg (img.pixel x y)) avg.2.1 (max 1 avg.2.1)
       , recolorChannel (pb (img.pixel x y)) avg.2.2 (max 1 avg.2.2) )
      = (pr (img.pixel x y), pg (img.pixel x y), pb (img.pixel x y))
  rw [max_eq_right h1, max_eq_right h2, max_eq_right h3]
  rw [recolorChannel_self h1 hr, recolorChannel_self h2 hg, recolorChannel_self h3 hb]

/-- C9, witness at a concrete 1×1 image and `avg = (2, 3, 4)`. -/
theorem c9_witness :
    (((1 : ℤ) ≤ 2 ∧ (1 : ℤ) ≤ 3 ∧ (1 : ℤ) ≤ 4) ∧
     (∀ x y, x < imgW9.width → y < imgW9.height →
       pr (imgW9.pixel x y) ≤ 255 ∧ pg (imgW9.pixel x y) ≤ 255 ∧
       pb (imgW9.pixel x y) ≤ 255)) ∧
    ((recolorImage imgW9 (2, 3, 4) (2, 3, 4)).width = imgW9.width ∧
     (recolorImage imgW9 (2, 3, 4) (2, 3, 4)).height = imgW9.height ∧
     ∀ x y, x < imgW9.width → y < imgW9.height →
       (recolorImage imgW9 (2, 3, 4) (2, 3, 4)).pixel x y = imgW9.pixel x y) :=
  ⟨⟨by decide, fun _ _ _ _ =>
      (by decide : (100 : ℕ) ≤ 255 ∧ (150 : ℕ) ≤ 255 ∧ (200 : ℕ) ≤ 255)⟩,
    c9_recolor_identity imgW9 (2, 3, 4) (by decide) (by decide) (by decide)
      (fun _ _ _ _ =>
        (by decide : (100 : ℕ) ≤ 255 ∧ (150 : ℕ) ≤ 255 ∧ (200 : ℕ) ≤ 255))⟩

/-- C6, counterexample.  With `blockSize = 2` and the `low` preset
(scale factor 0.75), `blockSize · scaleFactor = 1.5`: the claimed
round-to-nearest gives `max(1, 2) = 2`, but the code's `int()` truncation
gives `max(1, 1) = 1`. -/
theorem c6_counterexample :
    adjustedBlockSize 2 .low = 1 ∧ specAdjustedBlockSize 2 .low = 2 ∧
    adjustedBlockSize 2 .low ≠ specAdjustedBlockSize 2 .low := by
  decide

/-- C6, amended.  For every positive `blockSize` and every preset, the
adjusted block size equals `max(1, ⌊blockSize · scaleFactor⌋)` — `int()`
truncation (equal to floor for positive values), not round-to-nearest. -/
theorem c6_adjusted_block_size_truncates (bs : ℤ) (q : Quality) (hbs : 0 < bs) :
    (adjustedBlockSize bs q : ℤ) = max 1 ⌊(bs : ℚ) * scaleFactor q⌋ := by
  have hnum : 0 < scaleNum q := by cases q <;> decide
  have hden : 0 < scaleDen q := by cases q <;> decide
  have hfl : ⌊(bs : ℚ) * scaleFactor q⌋ = (bs * scaleNum q) / scaleDen q := by
    rw [scaleFactor, show (bs : ℚ) * ((scaleNum q : ℚ) / (scaleDen q : ℚ))
        = ((bs * scaleNum q : ℤ) : ℚ) / ((scaleDen q : ℤ) : ℚ) by push_cast; ring]
    exact floorQ_intCast_div hden.le
  rw [hfl, adjustedBlockSize, pyTruncDiv_of_nonneg (mul_nonneg hbs.le hnum.le),
    Int.toNat_of_nonneg (by omega)]

/-- C6, witness at `blockSize = 5`, preset `high`: `⌊5 · 1.5⌋ = 7`. -/
theorem c6_witness :
    (0 : ℤ) < 5 ∧
    (adjustedBlockSize 5 .high : ℤ) = max 1 ⌊(5 : ℚ) * scaleFactor .high⌋ :=
  ⟨by decide, c6_adjusted_block_size_truncates 5 .high (by decide)⟩

theorem divideIntoSections_eq (w h b : ℕ) :
    divideIntoSections w h b =
      [ (0, 0, w, h / 4), (0, h / 4, w, 2 * (h / 4))
      , (0, 2 * (h / 4), w, 3 * (h / 4)), (0, 3 * (h / 4), w, h) ] := by
  simp [divideIntoSections, List.range_succ]

/-- C10.  The section divider returns four full-width sections whose row
ranges are contiguous, start at 0, end at `height` (the last section absorbs
the remainder), and cover every output row exactly once. -/
theorem c10_sections_partition (w h b : ℕ) :
    (divideIntoSections w h b).length = 4 ∧
    (∀ p ∈ divideIntoSections w h b,
      p.1 = 0 ∧ p.2.2.1 = w ∧ p.2.1 ≤ p.2.2.2 ∧ p.2.2.2 ≤ h) ∧
    (∀ i, i + 1 < 4 →
      ((divideIntoSections w h b).getD i (0, 0, 0, 0)).2.2.2 =
        ((divideIntoSections w h b).getD (i + 1) (0, 0, 0, 0)).2.1) ∧
    ((divideIntoSections w h b).getD 0 (0, 0, 0, 0)).2.1 = 0 ∧
    ((divideIntoSections w h b).getD 3 (0, 0, 0, 0)).2.2.2 = h ∧
    (∀ y, y < h → ∃! i, i < 4 ∧
      ((divideIntoSections w h b).getD i (0, 0, 0, 0)).2.1 ≤ y ∧
      y < ((divideIntoSections w h b).getD i (0, 0, 0, 0)).2.2.2) := by
  rw [divideIntoSections_eq]
  refine ⟨by simp, ?_, ?_, by simp, by simp, ?_⟩
  · intro p hp
    simp only [List.mem_cons, List.not_mem_nil, or_false] at hp
    rcases hp with rfl | rfl | rfl | rfl <;> dsimp only <;>
      refine ⟨rfl, rfl, by omega, by omega⟩
  · intro i hi
    have hi3 : i < 3 := by omega
    interval_cases i <;> simp
  · intro y hy
    refine ⟨if y < h / 4 then 0 else if y < 2 * (h / 4) then 1
      else if y < 3 * (h / 4) then 2 else 3, ?_, ?_⟩
    · split_ifs with a1 a2 a3 <;> simp <;> omega
    · intro j hj
      obtain ⟨hj4, hjl, hjr⟩ := hj
      interval_cases j <;> simp at hjl hjr <;> split_ifs <;> omega

/-- C10, witness: with output size 5×10 every row, here row 9, lies in
exactly one section. -/
theorem c10_witness :
    9 < 10 ∧ ∃! i, i < 4 ∧
      ((divideIntoSections 5 10 2).getD i (0, 0, 0, 0)).2.1 ≤ 9 ∧
      9 < ((divideIntoSections 5 10 2).getD i (0, 0, 0, 0)).2.2.2 :=
  ⟨by decide, (c10_sections_partition 5 10 2).2.2.2.2.2 9 (by decide)⟩

theorem sum_map_const_range (n c : ℕ) :
    ((List.range n).map (fun _ => c)).sum = n * c := by
  induction n with
  | zero => simp
  | succ k ih =>
    rw [List.range_succ, List.map_append, List.sum_append, ih]
    simp [Nat.succ_mul]

theorem sumRegion_const (c x0 x1 y0 y1 : ℕ) :
    sumRegion (fun _ _ => c) x0 x1 y0 y1 = (y1 - y0) * ((x1 - x0) * c) := by
  unfold sumRegion
  simp only [sum_map_const_range]

theorem sumRegion_le (f : ℕ → ℕ → ℕ) (x0 x1 y0 y1 bound : ℕ)
    (hf : ∀ dx dy, dx < x1 - x0 → dy < y1 - y0 → f (x0 + dx) (y0 + dy) ≤ bound) :
    sumRegion f x0 x1 y0 y1 ≤ (y1 - y0) * ((x1 - x0) * bound) := by
  unfold sumRegion
  have houter : ∀ s ∈ (List.range (y1 - y0)).map (fun dy =>
      ((List.range (x1 - x0)).map (fun dx => f (x0 + dx) (y0 + dy))).sum),
      s ≤ (x1 - x0) * bound := by
    intro s hs
    obtain ⟨dy, hdy, rfl⟩ := List.mem_map.1 hs
    have hinner : ∀ v ∈ (List.range (x1 - x0)).map (fun dx => f (x0 + dx) (y0 + dy)),
        v ≤ bound := by
      intro v hv
      obtain ⟨dx, hdx, rfl⟩ := List.mem_map.1 hv
      exact hf dx dy (List.mem_range.1 hdx) (List.mem_range.1 hdy)
    have h1 := List.sum_le_card_nsmul _ _ hinner
    simpa using h1
  have h2 := List.sum_le_card_nsmul _ _ houter
  simpa using h2

theorem i32_of_small {n : ℤ} (h0 : 0 ≤ n) (h : n < 2 ^ 31) : i32 n = n := by
  unfold i32
  omega

theorem meanI32_eq_div {s c : ℕ} (hs : (s : ℤ) < 2 ^ 31) :
    meanI32 s c = ((s / c : ℕ) : ℤ) := by
  unfold meanI32
  rw [i32_of_small (Int.natCast_nonneg s) hs,
    pyTruncDiv_of_nonneg (Int.natCast_nonneg s)]
  exact_mod_cast (Int.natCast_div s c).symm

/-- An all-white 4096×4096 image: its per-channel pixel sum
`4096 · 4096 · 255 = 4278190080` exceeds `2^31 - 1`. -/
def imgBig : Img := ⟨4096, 4096, fun _ _ => (255, 255, 255)⟩

/-- C7, counterexample.  On a 4096×4096 all-white image the int32
accumulator of `np.mean(..., dtype=np.int32)` wraps, so the returned
average is `(-1, -1, -1)`: not the exact mean 255, and outside `[0, 255]`. -/
theorem c7_counterexample :
    (computeImageAverageColor imgBig).1 = -1 ∧
    ((sumRegion (fun x y => pr (imgBig.pixel x y)) 0 imgBig.width 0 imgBig.height
        / (imgBig.width * imgBig.height) : ℕ) : ℤ) = 255 ∧
    (computeImageAverageColor imgBig).1 < 0 := by
  have h : computeImageAverageColor imgBig =
      ( meanI32 ((4096 - 0) * ((4096 - 0) * 255)) (4096 * 4096)
      , meanI32 ((4096 - 0) * ((4096 - 0) * 255)) (4096 * 4096)
      , meanI32 ((4096 - 0) * ((4096 - 0) * 255)) (4096 * 4096) ) := by
    show ( meanI32 (sumRegion (fun _ _ => 255) 0 4096 0 4096) (4096 * 4096)
         , meanI32 (sumRegion (fun _ _ => 255) 0 4096 0 4096) (4096 * 4096)
         , meanI32 (sumRegion (fun _ _ => 255) 0 4096 0 4096) (4096 * 4096) ) = _
    rw [sumRegion_const]
  have h2 : sumRegion (fun x y => pr (imgBig.pixel x y)) 0 imgBig.width 0
      imgBig.height = (4096 - 0) * ((4096 - 0) * 255) := by
    show sumRegion (fun _ _ => 255) 0 4096 0 4096 = _
    rw [sumRegion_const]
  refine ⟨?_, ?_, ?_⟩
  · rw [h]; decide
  · rw [h2]; decide
  · rw [h]; decide

/-- C7, amended.  For every non-empty image with valid (≤ 255) channel values
whose per-channel pixel sum fits in int32 (`width · height · 255 < 2^31`),
`_compute_image_average_color` returns exactly the per-channel arithmetic mean
rounded down (`sum / (width · height)` in integer division), and each returned
channel lies in `[0, 255]`.  Without the size bound the int32 accumulator can
wrap (see the counterexample). -/
theorem c7_global_average_exact_mean (img : Img)
    (hw : 0 < img.width) (hh : 0 < img.height)
    (hpix : ∀ x y, x < img.width → y < img.height →
      pr (img.pixel x y) ≤ 255 ∧ pg (img.pixel x y) ≤ 255 ∧ pb (img.pixel x y) ≤ 255)
    (hsize : ((img.width * img.height : ℕ) : ℤ) * 255 < 2 ^ 31) :
    computeImageAverageColor img =
      ( ((sumRegion (fun x y => pr (img.pixel x y)) 0 img.width 0 img.height
            / (img.width * img.height) : ℕ) : ℤ)
      , ((sumRegion (fun x y => pg (img.pixel x y)) 0 img.width 0 img.height
            / (img.width * img.height) : ℕ) : ℤ)
      , ((sumRegion (fun x y => pb (img.pixel x y)) 0 img.width 0 img.height
            / (img.width * img.height) : ℕ) : ℤ) ) ∧
    (0 ≤ (computeImageAverageColor img).1 ∧ (computeImageAverageColor img).1 ≤ 255) ∧
    (0 ≤ (computeImageAverageColor img).2.1 ∧ (computeImageAverageColor img).2.1 ≤ 255) ∧
    (0 ≤ (computeImageAverageColor img).2.2 ∧ (computeImageAverageColor img).2.2 ≤ 255) := by
  have hbound : ∀ (ch : Pixel → ℕ), (∀ x y, x < img.width → y < img.height →
      ch (img.pixel x y) ≤ 255) →
      sumRegion (fun x y => ch (img.pixel x y)) 0 img.width 0 img.height ≤
        img.width * img.height * 255 := by
    intro ch hch
    have h1 := sumRegion_le (fun x y => ch (img.pixel x y)) 0 img.width 0
      img.height 255 (by
        intro dx dy hdx hdy
        simp only [Nat.zero_add] at *
        exact hch dx dy (by omega) (by omega))
    calc sumRegion (fun x y => ch (img.pixel x y)) 0 img.width 0 img.height
        ≤ (img.height - 0) * ((img.width - 0) * 255) := h1
      _ = img.width * img.height * 255 := by rw [Nat.sub_zero, Nat.sub_zero]; ring
  have hsize' : img.width * img.height * 255 < 2 ^ 31 := by exact_mod_cast hsize
  have hchR := hbound pr (fun x y hx hy => (hpix x y hx hy).1)
  have hchG := hbound pg (fun x y hx hy => (hpix x y hx hy).2.1)
  have hchB := hbound pb (fun x y hx hy => (hpix x y hx hy).2.2)
  have hsR : ((sumRegion (fun x y => pr (img.pixel x y)) 0 img.width 0
      img.height : ℕ) : ℤ) < 2 ^ 31 := by
    have h3 := hchR
    omega
  have hsG : ((sumRegion (fun x y => pg (img.pixel x y)) 0 img.width 0
      img.height : ℕ) : ℤ) < 2 ^ 31 := by
    have h3 := hchG
    omega
  have hsB : ((sumRegion (fun x y => pb (img.pixel x y)) 0 img.width 0
      img.height : ℕ) : ℤ) < 2 ^ 31 := by
    have h3 := hchB
    omega
  have hdivle : ∀ s : ℕ, s ≤ img.width * img.height * 255 →
      s / (img.width * img.height) ≤ 255 := by
    intro s hs
    have hn : 0 < img.width * img.height := Nat.mul_pos hw hh
    calc s / (img.width * img.height)
        ≤ img.width * img.height * 255 / (img.width * img.height) :=
          Nat.div_le_div_right hs
      _ = 255 := by rw [Nat.mul_div_cancel_left _ hn]
  have heq : computeImageAverageColor img =
      ( ((sumRegion (fun x y => pr (img.pixel x y)) 0 img.width 0 img.height
            / (img.width * img.height) : ℕ) : ℤ)
      , ((sumRegion (fun x y => pg (img.pixel x y)) 0 img.width 0 img.height
            / (img.width * img.height) : ℕ) : ℤ)
      , ((sumRegion (fun x y => pb (img.pixel x y)) 0 img.width 0 img.height
            / (img.width * img.height) : ℕ) : ℤ) ) := by
    unfold computeImageAverageColor
    dsimp only
    rw [meanI32_eq_div hsR, meanI32_eq_div hsG, meanI32_eq_div hsB]
  refine ⟨heq, ?_, ?_, ?_⟩ <;> rw [heq] <;> dsimp only <;>
    exact ⟨Int.natCast_nonneg _, by exact_mod_cast hdivle _ (by assumption)⟩

/-- A 2×1 image with pixels `(10, 20, 30)` and `(20, 40, 50)`. -/
def imgW7 : Img := ⟨2, 1, fun x _ => if x = 0 then (10, 20, 30) else (20, 40, 50)⟩

/-- C7, witness at the 2×1 image above: the average is the exact floored
mean `(15, 30, 40)`, within `[0, 255]`. -/
theorem c7_witness :
    (0 < imgW7.width ∧ 0 < imgW7.height ∧
      ((imgW7.width * imgW7.height : ℕ) : ℤ) * 255 < 2 ^ 31 ∧
      (∀ x y, x < imgW7.width → y < imgW7.height →
        pr (imgW7.pixel x y) ≤ 255 ∧ pg (imgW7.pixel x y) ≤ 255 ∧
        pb (imgW7.pixel x y) ≤ 255)) ∧
    computeImageAverageColor imgW7 =
      ( ((sumRegion (fun x y => pr (imgW7.pixel x y)) 0 imgW7.width 0 imgW7.height
            / (imgW7.width * imgW7.height) : ℕ) : ℤ)
      , ((sumRegion (fun x y => pg (imgW7.pixel x y)) 0 imgW7.width 0 imgW7.height
            / (imgW7.width * imgW7.height) : ℕ) : ℤ)
      , ((sumRegion (fun x y => pb (imgW7.pixel x y)) 0 imgW7.width 0 imgW7.height
            / (imgW7.width * imgW7.height) : ℕ) : ℤ) ) ∧
    computeImageAverageColor imgW7 = (15, 30, 40) := by
  have hpix : ∀ x y, x < imgW7.width → y < imgW7.height →
      pr (imgW7.pixel x y) ≤ 255 ∧ pg (imgW7.pixel x y) ≤ 255 ∧
      pb (imgW7.pixel x y) ≤ 255 := by
    intro x y hx hy
    have hx2 : x < 2 := hx
    interval_cases x
    · exact (by decide : pr ((10, 20, 30) : Pixel) ≤ 255 ∧
        pg ((10, 20, 30) : Pixel) ≤ 255 ∧ pb ((10, 20, 30) : Pixel) ≤ 255)
    · exact (by decide : pr ((20, 40, 50) : Pixel) ≤ 255 ∧
        pg ((20, 40, 50) : Pixel) ≤ 255 ∧ pb ((20, 40, 50) : Pixel) ≤ 255)
  refine ⟨⟨by decide, by decide, by decide, hpix⟩, ?_, by decide⟩
  exact (c7_global_average_exact_mean imgW7 (by decide) (by decide) hpix
    (by decide)).1

/-- A 4×1 image with red channel `10, 20, 30, 40` along the row. -/
def imgC8 : Img := ⟨4, 1, fun x _ => ((x + 1) * 10, 0, 0)⟩

/-- C8, counterexample.  At `x0 = -2`, `blockSize = 5` the claimed clipped
rectangle is columns `[0, 3)` with mean 20, but numpy's negative slice index
wraps around: `image_array[:, -2:3]` selects only column 2, so the code
returns 30. -/
theorem c8_counterexample :
    computeBlockAverageColor imgC8 (-2) 0 5 = (30, 0, 0) ∧
    specBlockAverage imgC8 (-2) 0 5 = (20, 0, 0) ∧
    computeBlockAverageColor imgC8 (-2) 0 5 ≠ specBlockAverage imgC8 (-2) 0 5 := by
  decide

/-- C8, amended.  For nonnegative block origins (the only ones
`_process_section` produces) and any `blockSize`, the block average equals
the truncated per-channel mean over the rectangle clipped to the image
bounds, and `(0,0,0)` whenever the clipped rectangle is empty (including
`x0 ≥ width`, `y0 ≥ height`, and `blockSize ≤ 0`); pixel sums must fit in
int32.  For negative origins Python's wrap-around slice indexing makes the
code average a different region (see the counterexample). -/
theorem c8_block_average_clipped_mean (img : Img) (x0 y0 : ℕ) (bs : ℤ)
    (hpix : ∀ x y, x < img.width → y < img.height →
      pr (img.pixel x y) ≤ 255 ∧ pg (img.pixel x y) ≤ 255 ∧ pb (img.pixel x y) ≤ 255)
    (hsize : ((img.width * img.height : ℕ) : ℤ) * 255 < 2 ^ 31) :
    computeBlockAverageColor img x0 y0 bs = specBlockAverage img x0 y0 bs := by
  by_cases hg : (img.width : ℤ) ≤ (x0 : ℤ) ∨ (img.height : ℤ) ≤ (y0 : ℤ) ∨
      min ((x0 : ℤ) + bs) (img.width : ℤ) ≤ (x0 : ℤ) ∨
      min ((y0 : ℤ) + bs) (img.height : ℤ) ≤ (y0 : ℤ)
  · unfold computeBlockAverageColor specBlockAverage
    dsimp only
    rw [if_pos hg, if_pos (by omega)]
  · push_neg at hg
    obtain ⟨hxw, hyh, hxe, hye⟩ := hg
    have hpx0 : pyIdx img.width (x0 : ℤ) = x0 := by
      unfold pyIdx
      rw [if_neg (by omega)]
      omega
    have hpy0 : pyIdx img.height (y0 : ℤ) = y0 := by
      unfold pyIdx
      rw [if_neg (by omega)]
      omega
    have hpx1 : pyIdx img.width (min ((x0 : ℤ) + bs) (img.width : ℤ)) =
        (min ((x0 : ℤ) + bs) (img.width : ℤ)).toNat := by
      unfold pyIdx
      rw [if_neg (by omega)]
      omega
    have hpy1 : pyIdx img.height (min ((y0 : ℤ) + bs) (img.height : ℤ)) =
        (min ((y0 : ℤ) + bs) (img.height : ℤ)).toNat := by
      unfold pyIdx
      rw [if_neg (by omega)]
      omega
    have hcx0 : (max (x0 : ℤ) 0).toNat = x0 := by omega
    have hcy0 : (max (y0 : ℤ) 0).toNat = y0 := by omega
    have hX1w : (min ((x0 : ℤ) + bs) (img.width : ℤ)).toNat ≤ img.width := by omega
    have hY1h : (min ((y0 : ℤ) + bs) (img.height : ℤ)).toNat ≤ img.height := by omega
    have hbnd : ∀ ch : Pixel → ℕ,
        (∀ x y, x < img.width → y < img.height → ch (img.pixel x y) ≤ 255) →
        ((sumRegion (fun x y => ch (img.pixel x y)) x0
            ((min ((x0 : ℤ) + bs) (img.width : ℤ)).toNat) y0
            ((min ((y0 : ℤ) + bs) (img.height : ℤ)).toNat) : ℕ) : ℤ) < 2 ^ 31 := by
      intro ch hch
      have h1 := sumRegion_le (fun x y => ch (img.pixel x y)) x0
        ((min ((x0 : ℤ) + bs) (img.width : ℤ)).toNat) y0
        ((min ((y0 : ℤ) + bs) (img.height : ℤ)).toNat) 255
        (fun dx dy hdx hdy => hch _ _ (by omega) (by omega))
      have h2 : ((min ((y0 : ℤ) + bs) (img.height : ℤ)).toNat - y0) *
          (((min ((x0 : ℤ) + bs) (img.width : ℤ)).toNat - x0) * 255) ≤
          img.height * (img.width * 255) :=
        Nat.mul_le_mul (by omega) (Nat.mul_le_mul_right _ (by omega))
      have h3 : img.height * (img.width * 255) = img.width * img.height * 255 := by
        ring
      have h4 : img.width * img.height * 255 < 2 ^ 31 := by exact_mod_cast hsize
      omega
    unfold computeBlockAverageColor specBlockAverage
    dsimp only
    rw [if_neg (by omega), if_neg (by omega)]
    rw [hpx0, hpy0, hpx1, hpy1, hcx0, hcy0]
    rw [meanI32_eq_div (hbnd pr (fun x y hx hy => (hpix x y hx hy).1)),
      meanI32_eq_div (hbnd pg (fun x y hx hy => (hpix x y hx hy).2.1)),
      meanI32_eq_div (hbnd pb (fun x y hx hy => (hpix x y hx hy).2.2))]

/-- C8, witness at the 4×1 image, query `(1, 0, 2)`: both sides give the
clipped mean `(25, 0, 0)` over columns 1 and 2. -/
theorem c8_witness :
    ((∀ x y, x < imgC8.width → y < imgC8.height →
        pr (imgC8.pixel x y) ≤ 255 ∧ pg (imgC8.pixel x y) ≤ 255 ∧
        pb (imgC8.pixel x y) ≤ 255) ∧
      ((imgC8.width * imgC8.height : ℕ) : ℤ) * 255 < 2 ^ 31) ∧
    computeBlockAverageColor imgC8 1 0 2 = specBlockAverage imgC8 1 0 2 ∧
    computeBlockAverageColor imgC8 1 0 2 = (25, 0, 0) := by
  have hpix : ∀ x y, x < imgC8.width → y < imgC8.height →
      pr (imgC8.pixel x y) ≤ 255 ∧ pg (imgC8.pixel x y) ≤ 255 ∧
      pb (imgC8.pixel x y) ≤ 255 := by
    intro x y hx hy
    have h1 : pr (imgC8.pixel x y) = (x + 1) * 10 := rfl
    have h2 : pg (imgC8.pixel x y) = 0 := rfl
    have h3 : pb (imgC8.pixel x y) = 0 := rfl
    have hx4 : x < 4 := hx
    omega
  exact ⟨⟨hpix, by decide⟩,
    c8_block_average_clipped_mean imgC8 1 0 2 hpix (by decide), by decide⟩

/-! ### Lemmas about the worker fold of `process_image` -/

theorem processSection_canvas_width (o c : Img) (sec : ℕ × ℕ × ℕ × ℕ) (b : ℕ)
    (s : Img) (avg : AvgColor) (r : List (Option Bool)) (i : ℕ) :
    (processSection o c sec b s avg r i).1.width = c.width := by
  unfold processSection
  by_cases h : c.width = 0
  · rw [if_pos h]
  · rw [if_neg h]
    dsimp only
    cases hps : pySetItem r i (some true) <;> simp [hps, pasteImg]

theorem processSection_canvas_height (o c : Img) (sec : ℕ × ℕ × ℕ × ℕ) (b : ℕ)
    (s : Img) (avg : AvgColor) (r : List (Option Bool)) (i : ℕ) :
    (processSection o c sec b s avg r i).1.height = c.height := by
  unfold processSection
  by_cases h : c.width = 0
  · rw [if_pos h]
  · rw [if_neg h]
    dsimp only
    cases hps : pySetItem r i (some true) <;> simp [hps, pasteImg]

theorem processSection_canvas_indep (o c : Img) (sec : ℕ × ℕ × ℕ × ℕ) (b : ℕ)
    (s : Img) (avg : AvgColor) (r1 r2 : List (Option Bool)) (i : ℕ) :
    (processSection o c sec b s avg r1 i).1 =
      (processSection o c sec b s avg r2 i).1 := by
  unfold processSection
  by_cases h : c.width = 0
  · simp only [if_pos h]
  · simp only [if_neg h]
    cases h1 : pySetItem r1 i (some true) <;> cases h2 : pySetItem r2 i (some true) <;>
      simp [h1, h2]

theorem processSection_results_empty (o c : Img) (sec : ℕ × ℕ × ℕ × ℕ) (b : ℕ)
    (s : Img) (avg : AvgColor) (i : ℕ) (hc : c.width ≠ 0) :
    (processSection o c sec b s avg [] i).2.1 = [] ∧
    (processSection o c sec b s avg [] i).2.2 = some .indexError := by
  unfold processSection
  rw [if_neg hc]
  dsimp only
  rw [show pySetItem ([] : List (Option Bool)) i (some true) = none from by
    unfold pySetItem; simp]
  exact ⟨rfl, rfl⟩

theorem processSection_results_getD (o c : Img) (sec : ℕ × ℕ × ℕ × ℕ) (b : ℕ)
    (s : Img) (avg : AvgColor) (r : List (Option Bool)) (i : ℕ) (hc : c.width ≠ 0) :
    (processSection o c sec b s avg r i).2.1 =
      (pySetItem r i (some true)).getD r := by
  unfold processSection
  rw [if_neg hc]
  dsimp only
  cases hps : pySetItem r i (some true) <;> simp [hps]

theorem foldl_runStep_canvas_width (o : Img) (a : ℕ) (s : Img) (avg : AvgColor)
    (l : List (ℕ × (ℕ × ℕ × ℕ × ℕ))) :
    ∀ st : Img × List (Option Bool) × List (Option SecError),
    (l.foldl (runStep o a s avg) st).1.width = st.1.width := by
  induction l with
  | nil => intro st; rfl
  | cons e t ih =>
    intro st
    rw [List.foldl_cons, ih]
    exact processSection_canvas_width o st.1 e.2 a s avg st.2.1 e.1

theorem foldl_runStep_canvas_height (o : Img) (a : ℕ) (s : Img) (avg : AvgColor)
    (l : List (ℕ × (ℕ × ℕ × ℕ × ℕ))) :
    ∀ st : Img × List (Option Bool) × List (Option SecError),
    (l.foldl (runStep o a s avg) st).1.height = st.1.height := by
  induction l with
  | nil => intro st; rfl
  | cons e t ih =>
    intro st
    rw [List.foldl_cons, ih]
    exact processSection_canvas_height o st.1 e.2 a s avg st.2.1 e.1

theorem foldl_runStep_canvas_indep (o : Img) (a : ℕ) (s : Img) (avg : AvgColor)
    (l : List (ℕ × (ℕ × ℕ × ℕ × ℕ))) :
    ∀ st1 st2 : Img × List (Option Bool) × List (Option SecError), st1.1 = st2.1 →
    (l.foldl (runStep o a s avg) st1).1 = (l.foldl (runStep o a s avg) st2).1 := by
  induction l with
  | nil => intro st1 st2 h; exact h
  | cons e t ih =>
    intro st1 st2 h
    rw [List.foldl_cons, List.foldl_cons]
    apply ih
    show (processSection o st1.1 e.2 a s avg st1.2.1 e.1).1 =
      (processSection o st2.1 e.2 a s avg st2.2.1 e.1).1
    rw [h]
    exact processSection_canvas_indep o st2.1 e.2 a s avg st1.2.1 st2.2.1 e.1

theorem foldl_runStep_empty_results (o : Img) (a : ℕ) (s : Img) (avg : AvgColor)
    (l : List (ℕ × (ℕ × ℕ × ℕ × ℕ))) :
    ∀ (c : Img) (outs : List (Option SecError)), c.width ≠ 0 →
    (l.foldl (runStep o a s avg) (c, [], outs)).2.1 = [] ∧
    (l.foldl (runStep o a s avg) (c, [], outs)).2.2 =
      outs ++ List.replicate l.length (some .indexError) := by
  induction l with
  | nil => intro c outs hc; simp
  | cons e t ih =>
    intro c outs hc
    have hemp := processSection_results_empty o c e.2 a s avg e.1 hc
    have hstep : runStep o a s avg (c, [], outs) e =
        ((processSection o c e.2 a s avg [] e.1).1, [],
          outs ++ [some .indexError]) := by
      show ((processSection o c e.2 a s avg [] e.1).1,
            (processSection o c e.2 a s avg [] e.1).2.1,
            outs ++ [(processSection o c e.2 a s avg [] e.1).2.2]) = _
      rw [hemp.1, hemp.2]
    rw [List.foldl_cons, hstep]
    obtain ⟨ih1, ih2⟩ := ih (processSection o c e.2 a s avg [] e.1).1
      (outs ++ [some .indexError])
      (by rw [processSection_canvas_width]; exact hc)
    refine ⟨ih1, ?_⟩
    rw [ih2]
    simp [List.replicate_succ]

theorem foldl_runStep_results_eq_setters (o : Img) (a : ℕ) (s : Img)
    (avg : AvgColor) (l : List (ℕ × (ℕ × ℕ × ℕ × ℕ))) :
    ∀ (c : Img) (outs : List (Option SecError)) (r : List (Option Bool)),
    c.width ≠ 0 →
    (l.foldl (runStep o a s avg) (c, r, outs)).2.1 =
      l.foldl (fun rr isec => (pySetItem rr isec.1 (some true)).getD rr) r := by
  induction l with
  | nil => intro c outs r hc; rfl
  | cons e t ih =>
    intro c outs r hc
    have hres := processSection_results_getD o c e.2 a s avg r e.1 hc
    have hstep : runStep o a s avg (c, r, outs) e =
        ((processSection o c e.2 a s avg r e.1).1,
          (pySetItem r e.1 (some true)).getD r,
          outs ++ [(processSection o c e.2 a s avg r e.1).2.2]) := by
      show ((processSection o c e.2 a s avg r e.1).1,
            (processSection o c e.2 a s avg r e.1).2.1,
            outs ++ [(processSection o c e.2 a s avg r e.1).2.2]) = _
      rw [hres]
    rw [List.foldl_cons, List.foldl_cons, hstep]
    exact ih _ _ _ (by rw [processSection_canvas_width]; exact hc)

theorem processImageAux_canvas_width (resize : Img → ℕ → ℕ → Img) (img : Img)
    (bs : ℤ) (q : Quality) (ir : ℕ → List (Option Bool)) :
    (processImageAux resize img bs q ir).canvas.width = outputDim img.width q := by
  show ((divideIntoSections (outputDim img.width q) (outputDim img.height q)
      (adjustedBlockSize bs q)).enum.foldl
      (runStep img (adjustedBlockSize bs q)
        (resize img (adjustedBlockSize bs q) (adjustedBlockSize bs q))
        (computeImageAverageColor img))
      (blankImg (outputDim img.width q) (outputDim img.height q),
        ir (divideIntoSections (outputDim img.width q) (outputDim img.height q)
          (adjustedBlockSize bs q)).length, [])).1.width = outputDim img.width q
  rw [foldl_runStep_canvas_width]
  rfl

theorem processImageAux_canvas_height (resize : Img → ℕ → ℕ → Img) (img : Img)
    (bs : ℤ) (q : Quality) (ir : ℕ → List (Option Bool)) :
    (processImageAux resize img bs q ir).canvas.height = outputDim img.height q := by
  show ((divideIntoSections (outputDim img.width q) (outputDim img.height q)
      (adjustedBlockSize bs q)).enum.foldl
      (runStep img (adjustedBlockSize bs q)
        (resize img (adjustedBlockSize bs q) (adjustedBlockSize bs q))
        (computeImageAverageColor img))
      (blankImg (outputDim img.width q) (outputDim img.height q),
        ir (divideIntoSections (outputDim img.width q) (outputDim img.height q)
          (adjustedBlockSize bs q)).length, [])).1.height = outputDim img.height q
  rw [foldl_runStep_canvas_height]
  rfl

/-- A resize collaborator producing an all-black thumbnail of the requested
size (PIL's `resize` is external to the core; any function of this type is an
admissible collaborator). -/
def resizeBlack : Img → ℕ → ℕ → Img := fun _ w h => blankImg w h

/-- A 2×1 image: one near-white pixel `(254,254,254)` and one black pixel. -/
def imgC1 : Img := ⟨2, 1, fun x _ => if x = 0 then (254, 254, 254) else (0, 0, 0)⟩

/-- C1.  The target average `process_image` passes to the recolorer is, for
every input, the average of the *original* image (line 167 recomputes
`self._compute_image_average_color()`, which reads `self.image_array`), not
the resized thumbnail's own average: at the concrete input the two differ
(127 vs 0 per channel). -/
theorem c1_target_average_is_original_average :
    (∀ (resize : Img → ℕ → ℕ → Img) (img : Img) (bs : ℤ) (q : Quality),
      (processImage resize img bs q).targetAvgUsed = computeImageAverageColor img) ∧
    (processImage resizeBlack imgC1 1 .normal).targetAvgUsed = (127, 127, 127) ∧
    computeImageAverageColor ((processImage resizeBlack imgC1 1 .normal).thumbnail) =
      (0, 0, 0) ∧
    (processImage resizeBlack imgC1 1 .normal).targetAvgUsed ≠
      computeImageAverageColor ((processImage resizeBlack imgC1 1 .normal).thumbnail) := by
  refine ⟨fun resize img bs q => rfl, by decide, by decide, by decide⟩

set_option maxHeartbeats 2000000 in
/-- C2.  Whenever the output canvas is non-degenerate, every one of the four
workers reaches `results[index] = True` on the empty `results` list and dies
with `IndexError` — but only after pasting its section, so the final canvas
is identical to the canvas of a corrected run whose `results` list has one
slot per section; the `results` list stays empty, so the completed-section
count observed by the progress loop is 0 for the whole run, while the
corrected run ends with all four sections marked. -/
theorem c2_workers_index_error_canvas_composed (resize : Img → ℕ → ℕ → Img)
    (img : Img) (bs : ℤ) (q : Quality) (how : 0 < outputDim img.width q) :
    (processImage resize img bs q).secOutcomes =
      List.replicate 4 (some .indexError) ∧
    (processImage resize img bs q).results = [] ∧
    observedCompleted (processImage resize img bs q).results = 0 ∧
    (processImage resize img bs q).canvas =
      (processImageFixed resize img bs q).canvas ∧
    (processImageFixed resize img bs q).results =
      List.replicate 4 (some true) := by
  have hcw : (blankImg (outputDim img.width q) (outputDim img.height q)).width ≠ 0 := by
    show outputDim img.width q ≠ 0
    omega
  have hrun := foldl_runStep_empty_results img (adjustedBlockSize bs q)
    (resize img (adjustedBlockSize bs q) (adjustedBlockSize bs q))
    (computeImageAverageColor img)
    ((divideIntoSections (outputDim img.width q) (outputDim img.height q)
      (adjustedBlockSize bs q)).enum)
    (blankImg (outputDim img.width q) (outputDim img.height q)) [] hcw
  have hlen : ((divideIntoSections (outputDim img.width q) (outputDim img.height q)
      (adjustedBlockSize bs q)).enum).length = 4 := by
    rw [List.enum_length, divideIntoSections_eq]
    rfl
  refine ⟨?_, ?_, ?_, ?_, ?_⟩
  · show ((divideIntoSections (outputDim img.width q) (outputDim img.height q)
        (adjustedBlockSize bs q)).enum.foldl
        (runStep img (adjustedBlockSize bs q)
          (resize img (adjustedBlockSize bs q) (adjustedBlockSize bs q))
          (computeImageAverageColor img))
        (blankImg (outputDim img.width q) (outputDim img.height q), [], [])).2.2 =
      List.replicate 4 (some .indexError)
    rw [hrun.2, hlen]
    rfl
  · show ((divideIntoSections (outputDim img.width q) (outputDim img.height q)
        (adjustedBlockSize bs q)).enum.foldl
        (runStep img (adjustedBlockSize bs q)
          (resize img (adjustedBlockSize bs q) (adjustedBlockSize bs q))
          (computeImageAverageColor img))
        (blankImg (outputDim img.width q) (outputDim img.height q), [], [])).2.1 = []
    exact hrun.1
  · show observedCompleted ((divideIntoSections (outputDim img.width q)
        (outputDim img.height q) (adjustedBlockSize bs q)).enum.foldl
        (runStep img (adjustedBlockSize bs q)
          (resize img (adjustedBlockSize bs q) (adjustedBlockSize bs q))
          (computeImageAverageColor img))
        (blankImg (outputDim img.width q) (outputDim img.height q), [], [])).2.1 = 0
    rw [hrun.1]
    rfl
  · show ((divideIntoSections (outputDim img.width q) (outputDim img.height q)
        (adjustedBlockSize bs q)).enum.foldl
        (runStep img (adjustedBlockSize bs q)
          (resize img (adjustedBlockSize bs q) (adjustedBlockSize bs q))
          (computeImageAverageColor img))
        (blankImg (outputDim img.width q) (outputDim img.height q), [], [])).1 =
      ((divideIntoSections (outputDim img.width q) (outputDim img.height q)
        (adjustedBlockSize bs q)).enum.foldl
        (runStep img (adjustedBlockSize bs q)
          (resize img (adjustedBlockSize bs q) (adjustedBlockSize bs q))
          (computeImageAverageColor img))
        (blankImg (outputDim img.width q) (outputDim img.height q),
          List.replicate ((divideIntoSections (outputDim img.width q)
            (outputDim img.height q) (adjustedBlockSize bs q)).length) none, [])).1
    apply foldl_runStep_canvas_indep
    rfl
  · show ((divideIntoSections (outputDim img.width q) (outputDim img.height q)
        (adjustedBlockSize bs q)).enum.foldl
        (runStep img (adjustedBlockSize bs q)
          (resize img (adjustedBlockSize bs q) (adjustedBlockSize bs q))
          (computeImageAverageColor img))
        (blankImg (outputDim img.width q) (outputDim img.height q),
          List.replicate ((divideIntoSections (outputDim img.width q)
            (outputDim img.height q) (adjustedBlockSize bs q)).length) none, [])).2.1 =
      List.replicate 4 (some true)
    rw [foldl_runStep_results_eq_setters _ _ _ _ _ _ _ _ hcw,
      divideIntoSections_eq]
    simp [List.enum, List.enumFrom, pySetItem, List.set]

/-- C2, witness at a concrete 2×1 image with `blockSize = 1`, `normal`
quality. -/
theorem c2_witness :
    0 < outputDim imgC1.width .normal ∧
    ((processImage resizeBlack imgC1 1 .normal).secOutcomes =
      List.replicate 4 (some .indexError) ∧
    (processImage resizeBlack imgC1 1 .normal).results = [] ∧
    observedCompleted (processImage resizeBlack imgC1 1 .normal).results = 0 ∧
    (processImage resizeBlack imgC1 1 .normal).canvas =
      (processImageFixed resizeBlack imgC1 1 .normal).canvas ∧
    (processImageFixed resizeBlack imgC1 1 .normal).results =
      List.replicate 4 (some true)) :=
  ⟨by decide, c2_workers_index_error_canvas_composed resizeBlack imgC1 1 .normal
    (by decide)⟩

/-- A 1×1 image whose only pixel is `(9, 9, 9)`. -/
def imgC5 : Img := ⟨1, 1, fun _ _ => (9, 9, 9)⟩

/-- C2, counterexample to the claim exactly as stated.  On a 1×1 source at
`low` quality the output width is `int(1 · 0.75) = 0`, so every worker dies
at `scale_factor = self.width / new_image.width` with `ZeroDivisionError` —
before ever reaching `results[index] = True` — not with `IndexError`. -/
theorem c2_counterexample :
    (processImage resizeBlack imgC5 5 .low).outputWidth = 0 ∧
    (processImage resizeBlack imgC5 5 .low).secOutcomes =
      List.replicate 4 (some .zeroDivision) ∧
    (processImage resizeBlack imgC5 5 .low).secOutcomes ≠
      List.replicate 4 (some .indexError) := by
  decide

/-- C5, counterexample.  `process_image` performs no block-size validation:
with `blockSize = 0` it does not fail with any error — `max(1, int(0 · 1.0))`
clamps the adjusted block size to 1 and an output image of the usual
dimensions is produced (the only worker errors are the unrelated
`IndexError`s of C2). -/
theorem c5_counterexample :
    (processImage resizeBlack imgC5 0 .normal).adjusted = 1 ∧
    (processImage resizeBlack imgC5 0 .normal).canvas.width = 1 ∧
    (processImage resizeBlack imgC5 0 .normal).canvas.height = 1 ∧
    (processImage resizeBlack imgC5 0 .normal).secOutcomes =
      List.replicate 4 (some .indexError) := by
  decide

/-- C5, amended.  For every `blockSize ≤ 0` (any quality, any image), the
composition call raises no `InvalidBlockSize` error: the adjusted block size
is clamped to 1 by `max(1, int(blockSize · scaleFactor))` and composition
proceeds, returning a canvas of the standard output dimensions. -/
theorem c5_nonpositive_block_size_not_rejected (resize : Img → ℕ → ℕ → Img)
    (img : Img) (bs : ℤ) (q : Quality) (hbs : bs ≤ 0) :
    (processImage resize img bs q).adjusted = 1 ∧
    (processImage resize img bs q).outputWidth = outputDim img.width q ∧
    (processImage resize img bs q).outputHeight = outputDim img.height q ∧
    (processImage resize img bs q).canvas.width = outputDim img.width q ∧
    (processImage resize img bs q).canvas.height = outputDim img.height q := by
  have hnum : (0 : ℤ) < scaleNum q := by cases q <;> decide
  have hden : (0 : ℤ) < scaleDen q := by cases q <;> decide
  have hadj : adjustedBlockSize bs q = 1 := by
    unfold adjustedBlockSize
    have h1 : bs * scaleNum q ≤ 0 := by
      have h2 := mul_le_mul_of_nonneg_right hbs hnum.le
      simpa using h2
    have h3 := pyTruncDiv_nonpos h1 hden.le
    omega
  exact ⟨hadj, rfl, rfl, processImageAux_canvas_width resize img bs q _,
    processImageAux_canvas_height resize img bs q _⟩

/-- C5, witness at `blockSize = -3`, preset `low`, on a 1×1 image. -/
theorem c5_witness :
    (-3 : ℤ) ≤ 0 ∧
    ((processImage resizeBlack imgC5 (-3) .low).adjusted = 1 ∧
    (processImage resizeBlack imgC5 (-3) .low).outputWidth =
      outputDim imgC5.width .low ∧
    (processImage resizeBlack imgC5 (-3) .low).outputHeight =
      outputDim imgC5.height .low ∧
    (processImage resizeBlack imgC5 (-3) .low).canvas.width =
      outputDim imgC5.width .low ∧
    (processImage resizeBlack imgC5 (-3) .low).canvas.height =
      outputDim imgC5.height .low) :=
  ⟨by decide, c5_nonpositive_block_size_not_rejected resizeBlack imgC5 (-3) .low
    (by decide)⟩

/-! ### Trace model of the progress loop (`process_image`, lines 155–199)

Reported fractions are carried as numerator/denominator pairs: the source
reports `st.progress(0)` before starting the threads, `completed / len(sections)`
from the polling loop while any thread is alive, and `progress_bar.progress(1.0)`
after the loop exits. -/

/-- Observable events of one `process_image` run with progress enabled:
creating the bar at 0 (`st.progress(0)`), starting worker `i`, worker `i`
terminating (its paste done, its `results` write attempted), one polling-loop
report, and the final `progress_bar.progress(1.0)`. -/
inductive PEvent where
  | initBar (num den : ℕ)
  | startWorker (i : ℕ)
  | sectionDone (i : ℕ)
  | pollReport (num den : ℕ)
  | finalReport (num den : ℕ)
deriving DecidableEq

/-- Scheduler state for the trace model: whether the bar was created, how
many workers have been started, which of the four workers have terminated,
the shared `results` list, and whether the final report was issued. -/
structure TState where
  barInit : Bool
  started : ℕ
  done : List Bool
  results : List (Option Bool)
  finished : Bool

/-- State before `process_image`'s progress code runs: no bar, no worker
started, none of the four sections done, `results = []`. -/
def initTState : TState := ⟨false, 0, List.replicate 4 false, [], false⟩

/-- One step of the trace model, mirroring the source's control flow: the bar
is created (at 0) before any worker starts; workers start in order; a worker
may terminate any time after its start, attempting `results[i] = True` (kept
unchanged on `IndexError`); the polling loop runs only while some worker is
alive and reports `observedCompleted results / 4`; the final report of 1.0
happens once no worker is alive, after which nothing else is observed. -/
def stepT (s : TState) (e : PEvent) : Option TState :=
  if s.finished = true then none
  else
    match e with
    | .initBar n d =>
        if s.barInit = false ∧ s.started = 0 ∧ n = 0 ∧ d = 1 then
          some { s with barInit := true }
        else none
    | .startWorker i =>
        if s.barInit = true ∧ i = s.started ∧ s.started < 4 then
          some { s with started := s.started + 1 }
        else none
    | .sectionDone i =>
        if s.barInit = true ∧ i < s.started ∧ s.done.getD i true = false then
          some { s with done := s.done.set i true,
                        results := (pySetItem s.results i (some true)).getD s.results }
        else none
    | .pollReport n d =>
        if s.barInit = true ∧ s.started = 4 ∧ s.done.contains false = true ∧
            n = observedCompleted s.results ∧ d = 4 then
          some s
        else none
    | .finalReport n d =>
        if s.barInit = true ∧ s.started = 4 ∧ s.done.contains false = false ∧
            n = 1 ∧ d = 1 then
          some { s with finished := true }
        else none

/-- Run the trace model over a list of events. -/
def runT (s : TState) : List PEvent → Option TState
  | [] => some s
  | e :: rest =>
    match stepT s e with
    | some s2 => runT s2 rest
    | none => none

/-- A trace is a valid complete run when it drives the model from the initial
state to the state after the final report. -/
def validCompleteTrace (t : List PEvent) : Bool :=
  match runT initTState t with
  | some s => s.finished
  | none => false

/-- The fraction reported by an event, when it is a report. -/
def isReport : PEvent → Option (ℕ × ℕ)
  | .initBar n d => some (n, d)
  | .pollReport n d => some (n, d)
  | .finalReport n d => some (n, d)
  | _ => none

/-- Number of sections actually completed strictly before position `k`. -/
def doneCountBefore (t : List PEvent) (k : ℕ) : ℕ :=
  ((t.take k).filter (fun e => match e with
    | .sectionDone _ => true
    | _ => false)).length

/-- Whether an event is a worker start. -/
def isStart : PEvent → Bool
  | .startWorker _ => true
  | _ => false

/-- C4's claim, as stated, evaluated on a trace: every reported fraction
`n / d` equals (completed sections) / 4 at the moment of the report, some
0.0 report precedes every worker start, and some 1.0 report follows the
completion of all four sections. -/
def claimC4Stated (t : List PEvent) : Bool :=
  ((List.range t.length).all (fun k =>
    match isReport (t.getD k (.startWorker 0)) with
    | some (n, d) => n * 4 = doneCountBefore t k * d
    | none => true)) &&
  ((List.range t.length).any (fun k =>
    (match isReport (t.getD k (.startWorker 0)) with
     | some (n, _) => n = 0
     | none => false) &&
    ((t.take k).all (fun e => !(isStart e))))) &&
  ((List.range t.length).any (fun k =>
    (match isReport (t.getD k (.startWorker 0)) with
     | some (n, d) => n = d
     | none => false) &&
    (doneCountBefore t k = 4)))

/-- A valid complete trace in which worker 0 terminates before the first
poll: the poll still reports 0 of 4. -/
def trC4 : List PEvent :=
  [ .initBar 0 1, .startWorker 0, .startWorker 1, .startWorker 2, .startWorker 3
  , .sectionDone 0, .pollReport 0 4, .sectionDone 1, .sectionDone 2
  , .sectionDone 3, .finalReport 1 1 ]

/-- C4, counterexample.  The trace `trC4` is a valid complete run of the
progress machinery, yet the claim as stated fails on it: its poll report
gives fraction 0 while one section is already completed (0/4 ≠ 1/4). -/
theorem c4_counterexample :
    validCompleteTrace trC4 = true ∧ claimC4Stated trC4 = false := by
  decide

theorem stepT_of_finished {s : TState} (h : s.finished = true) (e : PEvent) :
    stepT s e = none := by
  unfold stepT
  rw [if_pos h]

theorem stepT_not_finished {s s2 : TState} {e : PEvent}
    (hst : stepT s e = some s2) : ¬ s.finished = true := by
  intro h
  rw [stepT_of_finished h] at hst
  simp at hst

theorem ite_some_eq {c : Prop} [Decidable c] {α : Type} {a b : α}
    (h : (if c then some a else none) = some b) : c ∧ a = b := by
  split_ifs at h with hc
  exact ⟨hc, Option.some.inj h⟩

theorem stepT_results_empty {s s2 : TState} {e : PEvent}
    (hst : stepT s e = some s2) (hres : s.results = []) : s2.results = [] := by
  have hnf := stepT_not_finished hst
  cases e <;> unfold stepT at hst <;> rw [if_neg hnf] at hst <;>
    obtain ⟨hcond, heq⟩ := ite_some_eq hst <;> subst heq <;>
    simp [hres, pySetItem]

theorem runT_polls_zero : ∀ (t : List PEvent) (s s2 : TState),
    runT s t = some s2 → s.results = [] →
    ∀ n d, PEvent.pollReport n d ∈ t → n = 0 ∧ d = 4 := by
  intro t
  induction t with
  | nil => intro s s2 _ _ n d hmem; simp at hmem
  | cons e rest ih =>
    intro s s2 hrun hres n d hmem
    unfold runT at hrun
    cases hst : stepT s e with
    | none => rw [hst] at hrun; simp at hrun
    | some s3 =>
      rw [hst] at hrun
      have hres3 := stepT_results_empty hst hres
      rcases List.mem_cons.1 hmem with heq | hmem2
      · subst heq
        have hnf := stepT_not_finished hst
        unfold stepT at hst
        rw [if_neg hnf] at hst
        obtain ⟨⟨-, -, -, hn, hd⟩, -⟩ := ite_some_eq hst
        refine ⟨?_, hd⟩
        rw [hn, hres]
        rfl
      · exact ih s3 s2 hrun hres3 n d hmem2

theorem validCompleteTrace_head {t : List PEvent}
    (hv : validCompleteTrace t = true) : t.head? = some (.initBar 0 1) := by
  cases t with
  | nil => simp [validCompleteTrace, runT, initTState] at hv
  | cons e rest =>
    unfold validCompleteTrace runT at hv
    cases hst : stepT initTState e with
    | none => rw [hst] at hv; simp at hv
    | some s2 =>
      cases e with
      | initBar n d =>
        unfold stepT at hst
        rw [if_neg (by simp [initTState])] at hst
        obtain ⟨⟨-, -, hn, hd⟩, -⟩ := ite_some_eq hst
        subst hn
        subst hd
        rfl
      | startWorker i => simp [stepT, initTState] at hst
      | sectionDone i => simp [stepT, initTState] at hst
      | pollReport n d => simp [stepT, initTState] at hst
      | finalReport n d => simp [stepT, initTState] at hst

theorem stepT_finished_eq {s s2 : TState} {e : PEvent}
    (hst : stepT s e = some s2) (h2 : s2.finished = true) :
    e = .finalReport 1 1 := by
  have hnf := stepT_not_finished hst
  cases e with
  | initBar n d =>
    unfold stepT at hst
    rw [if_neg hnf] at hst
    obtain ⟨-, heq⟩ := ite_some_eq hst
    subst heq
    exact absurd h2 hnf
  | startWorker i =>
    unfold stepT at hst
    rw [if_neg hnf] at hst
    obtain ⟨-, heq⟩ := ite_some_eq hst
    subst heq
    exact absurd h2 hnf
  | sectionDone i =>
    unfold stepT at hst
    rw [if_neg hnf] at hst
    obtain ⟨-, heq⟩ := ite_some_eq hst
    subst heq
    exact absurd h2 hnf
  | pollReport n d =>
    unfold stepT at hst
    rw [if_neg hnf] at hst
    obtain ⟨-, heq⟩ := ite_some_eq hst
    subst heq
    exact absurd h2 hnf
  | finalReport n d =>
    unfold stepT at hst
    rw [if_neg hnf] at hst
    obtain ⟨⟨-, -, -, hn, hd⟩, -⟩ := ite_some_eq hst
    rw [hn, hd]

theorem runT_last_final : ∀ (t : List PEvent) (s s2 : TState),
    runT s t = some s2 → s.finished = false → s2.finished = true →
    t.getLast? = some (.finalReport 1 1) := by
  intro t
  induction t with
  | nil =>
    intro s s2 hrun h1 h2
    unfold runT at hrun
    simp only [Option.some.injEq] at hrun
    subst hrun
    rw [h1] at h2
    simp at h2
  | cons e rest ih =>
    intro s s2 hrun h1 h2
    unfold runT at hrun
    cases hst : stepT s e with
    | none => rw [hst] at hrun; simp at hrun
    | some s3 =>
      rw [hst] at hrun
      cases rest with
      | nil =>
        unfold runT at hrun
        simp only [Option.some.injEq] at hrun
        subst hrun
        rw [stepT_finished_eq hst h2]
        rfl
      | cons e2 rest2 =>
        rw [List.getLast?_cons_cons]
        by_cases h3 : s3.finished = true
        · exfalso
          unfold runT at hrun
          rw [stepT_of_finished h3] at hrun
          simp at hrun
        · exact ih s3 s2 hrun (by simpa using h3) h2

/-- C4, amended.  In every valid complete run of the progress machinery:
the first report is the bar creation at fraction 0 (before any worker
starts), the last is the final report of fraction 1.0 (after all workers
have finished), and every polling-loop report has fraction 0/4 — the
observed completed-section count is stuck at 0 because the workers'
`results[index] = True` writes fail — regardless of how many sections have
actually completed by then. -/
theorem c4_progress_reports (t : List PEvent)
    (hv : validCompleteTrace t = true) :
    (∀ n d, PEvent.pollReport n d ∈ t → n = 0 ∧ d = 4) ∧
    t.head? = some (.initBar 0 1) ∧
    t.getLast? = some (.finalReport 1 1) := by
  have hrun : ∃ s, runT initTState t = some s ∧ s.finished = true := by
    unfold validCompleteTrace at hv
    cases hr : runT initTState t with
    | none => rw [hr] at hv; simp at hv
    | some s => rw [hr] at hv; exact ⟨s, rfl, hv⟩
  obtain ⟨s, hr, hf⟩ := hrun
  exact ⟨runT_polls_zero t initTState s hr rfl, validCompleteTrace_head hv,
    runT_last_final t initTState s hr rfl hf⟩

/-- C4, witness at the concrete trace `trC4`. -/
theorem c4_witness :
    validCompleteTrace trC4 = true ∧
    ((∀ n d, PEvent.pollReport n d ∈ trC4 → n = 0 ∧ d = 4) ∧
     trC4.head? = some (.initBar 0 1) ∧
     trC4.getLast? = some (.finalReport 1 1)) :=
  ⟨by decide, c4_progress_reports trC4 (by decide)⟩

end RecImg
